import Mathlib

/-!
Verification development for the PropertyChain ledger (`src/app.py`).

The embedding is executable throughout: SHA-256 is implemented over byte
lists, Python's `json.dumps(obj, sort_keys=True)` is modelled by `dumpJson`
over a JSON value type, and the ledger / registry operations are modelled as
pure state-passing functions.  Machine integers do not occur in the source
(Python integers are unbounded); 32-bit arithmetic inside SHA-256 is made
explicit with `% 2^32`.
-/

/-! ## SHA-256 (executable, over byte lists)

Models `hashlib.sha256(s).hexdigest()`.  Words are `Nat`s kept below `2^32`
by explicit reduction. -/

set_option maxRecDepth 100000

/-- Reduce a natural number modulo `2^32`. -/
def m32 (x : Nat) : Nat := x % 4294967296

/-- Right rotation of a 32-bit word. -/
def rotr (n x : Nat) : Nat := m32 ((x >>> n) ||| (x <<< (32 - n)))

/-- SHA-256 small sigma 0. -/
def ssig0 (x : Nat) : Nat := (rotr 7 x) ^^^ (rotr 18 x) ^^^ (x >>> 3)

/-- SHA-256 small sigma 1. -/
def ssig1 (x : Nat) : Nat := (rotr 17 x) ^^^ (rotr 19 x) ^^^ (x >>> 10)

/-- SHA-256 big sigma 0. -/
def bsig0 (x : Nat) : Nat := (rotr 2 x) ^^^ (rotr 13 x) ^^^ (rotr 22 x)

/-- SHA-256 big sigma 1. -/
def bsig1 (x : Nat) : Nat := (rotr 6 x) ^^^ (rotr 11 x) ^^^ (rotr 25 x)

/-- SHA-256 round constants. -/
def shaK : List Nat :=
  [1116352408, 1899447441, 3049323471, 3921009573, 961987163, 1508970993,
   2453635748, 2870763221, 3624381080, 310598401, 607225278, 1426881987,
   1925078388, 2162078206, 2614888103, 3248222580, 3835390401, 4022224774,
   264347078, 604807628, 770255983, 1249150122, 1555081692, 1996064986,
   2554220882, 2821834349, 2952996808, 3210313671, 3336571891, 3584528711,
   113926993, 338241895, 666307205, 773529912, 1294757372, 1396182291,
   1695183700, 1986661051, 2177026350, 2456956037, 2730485921, 2820302411,
   3259730800, 3345764771, 3516065817, 3600352804, 4094571909, 275423344,
   430227734, 506948616, 659060556, 883997877, 958139571, 1322822218,
   1537002063, 1747873779, 1955562222, 2024104815, 2227730452, 2361852424,
   2428436474, 2756734187, 3204031479, 3329325298]

/-- SHA-256 working state: eight 32-bit words. -/
structure S8 where
  a : Nat
  b : Nat
  c : Nat
  d : Nat
  e : Nat
  f : Nat
  g : Nat
  h : Nat

/-- SHA-256 initial hash value. -/
def shaH0 : S8 :=
  ⟨1779033703, 3144134277, 1013904242, 2773480762,
   1359893119, 2600822924, 528734635, 1541459225⟩

/-- One SHA-256 compression round with round constant `k` and schedule word `w`. -/
def shaRound (s : S8) (k w : Nat) : S8 :=
  let ch := (s.e &&& s.f) ^^^ ((s.e ^^^ 4294967295) &&& s.g)
  let maj := (s.a &&& s.b) ^^^ (s.a &&& s.c) ^^^ (s.b &&& s.c)
  let t1 := m32 (s.h + bsig1 s.e + ch + k + w)
  let t2 := m32 (bsig0 s.a + maj)
  ⟨m32 (t1 + t2), s.a, s.b, s.c, m32 (s.d + t1), s.e, s.f, s.g⟩

/-- Fold the 64 compression rounds over paired round constants and schedule words. -/
def shaRounds : S8 → List (Nat × Nat) → S8
  | s, [] => s
  | s, (k, w) :: rest => shaRounds (shaRound s k w) rest

/-- Componentwise 32-bit addition of two SHA-256 states. -/
def addS8 (x y : S8) : S8 :=
  ⟨m32 (x.a + y.a), m32 (x.b + y.b), m32 (x.c + y.c), m32 (x.d + y.d),
   m32 (x.e + y.e), m32 (x.f + y.f), m32 (x.g + y.g), m32 (x.h + y.h)⟩

/-- Next message-schedule word, computed from the reversed schedule so far. -/
def nextWord (r : List Nat) : Nat :=
  m32 (ssig1 (r.getD 1 0) + r.getD 6 0 + ssig0 (r.getD 14 0) + r.getD 15 0)

/-- Extend the reversed message schedule by `n` words. -/
def extendSched : Nat → List Nat → List Nat
  | 0, r => r
  | n + 1, r => extendSched n (nextWord r :: r)

/-- Full 64-word message schedule of a 16-word block. -/
def schedule (blk : List Nat) : List Nat :=
  (extendSched 48 blk.reverse).reverse

/-- Compress one 16-word block into the state. -/
def shaCompress (st : S8) (blk : List Nat) : S8 :=
  addS8 st (shaRounds st (shaK.zip (schedule blk)))

/-- Fold compression over all 16-word blocks. -/
def shaBlocks : S8 → List (List Nat) → S8
  | st, [] => st
  | st, blk :: rest => shaBlocks (shaCompress st blk) rest

/-- Big-endian byte expansion (`n` bytes) of a natural number. -/
def bytesBE : Nat → Nat → List Nat
  | 0, _ => []
  | n + 1, v => bytesBE n (v / 256) ++ [v % 256]

/-- SHA-256 padding: append `0x80`, zero bytes, and the 64-bit bit length. -/
def shaPad (msg : List Nat) : List Nat :=
  let l := msg.length
  let k := (64 + 56 - (l + 1) % 64) % 64
  msg ++ [128] ++ List.replicate k 0 ++ bytesBE 8 (8 * l)

/-- Group bytes into big-endian 32-bit words. -/
def toWords : List Nat → List Nat
  | b1 :: b2 :: b3 :: b4 :: rest =>
      (((b1 * 256 + b2) * 256 + b3) * 256 + b4) :: toWords rest
  | _ => []

/-- Group words into 16-word blocks. -/
def toBlocks : List Nat → List (List Nat)
  | w0 :: w1 :: w2 :: w3 :: w4 :: w5 :: w6 :: w7 ::
    w8 :: w9 :: w10 :: w11 :: w12 :: w13 :: w14 :: w15 :: rest =>
      [w0, w1, w2, w3, w4, w5, w6, w7, w8, w9, w10, w11, w12, w13, w14, w15]
        :: toBlocks rest
  | _ => []

/-- Lowercase hexadecimal digit. -/
def hexDigit (n : Nat) : Char := ("0123456789abcdef".data).getD n '0'

/-- Big-endian hexadecimal rendering (`d` digits) of a natural number. -/
def hexN : Nat → Nat → List Char
  | 0, _ => []
  | d + 1, v => hexN d (v / 16) ++ [hexDigit (v % 16)]

/-- SHA-256 digest of a byte list, as a 64-character lowercase hex string. -/
def sha256bytes (msg : List Nat) : String :=
  let st := shaBlocks shaH0 (toBlocks (toWords (shaPad msg)))
  String.mk (List.flatten ([st.a, st.b, st.c, st.d, st.e, st.f, st.g, st.h].map (hexN 8)))

/-- Bytes of a string; the source only ever hashes ASCII text, for which
UTF-8 bytes coincide with code points. -/
def strBytes (s : String) : List Nat := s.data.map Char.toNat

/-- SHA-256 hex digest of a string, modelling `hashlib.sha256(s).hexdigest()`. -/
def sha256hex (s : String) : String := sha256bytes (strBytes s)

example : sha256hex "abc" = "ba7816bf8f01cfea414140de5dae2223b00361a396177a9cb410ff61f20015ad" := by
  decide

/-! ## JSON values and `json.dumps(obj, sort_keys=True)`

Models the serialization used by `hash_object` in `src/app.py`.  JSON values
are numbers, strings, arrays and objects (the shapes the program hashes);
objects are association lists, serialized with keys sorted lexicographically,
with Python's default separators `", "` and `": "`. -/

inductive Json where
  | num : Int → Json
  | str : String → Json
  | arr : List Json → Json
  | obj : List (String × Json) → Json

/-- Escape one character as Python's `json.dumps` does for ASCII input
(`ensure_ascii` default); code points above `0xffff` do not occur in the
program's data and are out of scope. -/
def escChar (c : Char) : List Char :=
  if c = '"' then ['\\', '"']
  else if c = '\\' then ['\\', '\\']
  else if c = '\n' then ['\\', 'n']
  else if c = '\t' then ['\\', 't']
  else if c = '\r' then ['\\', 'r']
  else if c.toNat = 8 then ['\\', 'b']
  else if c.toNat = 12 then ['\\', 'f']
  else if c.toNat < 32 ∨ c.toNat > 126 then '\\' :: 'u' :: hexN 4 c.toNat
  else [c]

/-- Serialize a string literal with surrounding quotes, as `json.dumps` does. -/
def strDump (s : String) : String :=
  String.mk ('"' :: (s.data.map escChar).flatten ++ ['"'])

/-- Lexicographic `≤` on character lists by code point, matching Python's
string comparison used by `sorted`/`sort_keys`. -/
def strLeb : List Char → List Char → Bool
  | [], _ => true
  | _ :: _, [] => false
  | c :: cs, d :: ds =>
      if c.toNat < d.toNat then true
      else if d.toNat < c.toNat then false
      else strLeb cs ds

/-- Insert a key-value pair into a list sorted by key. -/
def insertPair (p : String × String) : List (String × String) → List (String × String)
  | [] => [p]
  | q :: rest => if strLeb p.1.data q.1.data then p :: q :: rest else q :: insertPair p rest

/-- Sort serialized object entries by key, modelling `sort_keys=True`. -/
def sortPairs : List (String × String) → List (String × String)
  | [] => []
  | p :: rest => insertPair p (sortPairs rest)

/-- Render one sorted object entry as `"key": value`. -/
def pairOut (kv : String × String) : String := strDump kv.1 ++ ": " ++ kv.2

mutual

/-- Serialize a JSON value exactly as `json.dumps(·, sort_keys=True)` does. -/
def dumpJson : Json → String
  | .num n => toString n
  | .str s => strDump s
  | .arr xs => "[" ++ String.intercalate ", " (dumpList xs) ++ "]"
  | .obj kvs =>
      "\x7b" ++ String.intercalate ", " ((sortPairs (dumpEntries kvs)).map pairOut) ++ "\x7d"
termination_by structural j => j

/-- Serialize each element of a JSON array. -/
def dumpList : List Json → List String
  | [] => []
  | x :: xs => dumpJson x :: dumpList xs
termination_by structural l => l

/-- Serialize the value of each object entry, keeping its raw key. -/
def dumpEntries : List (String × Json) → List (String × String)
  | [] => []
  | (k, v) :: rest => (k, dumpJson v) :: dumpEntries rest
termination_by structural l => l

end

/-- Models `hash_object` of `src/app.py`:
`hashlib.sha256(json.dumps(obj, sort_keys=True).encode()).hexdigest()`. -/
def hash_object (obj : Json) : String := sha256hex (dumpJson obj)

example :
    dumpJson (Json.obj [("type", .str "genesis"), ("msg", .str "Genesis Block")]) =
      "\x7b\"msg\": \"Genesis Block\", \"type\": \"genesis\"\x7d" := by decide

/-! ## Block and Blockchain (`src/app.py`, classes `Block` and `Blockchain`)

Timestamps (`now_ts()`) are explicit parameters; the proof-of-work loop
`while True: ...` is modelled with explicit fuel, `none` standing for an
execution that has not returned within the given number of iterations. -/

/-- A block, with the fields of `Block.__init__`. -/
structure Block where
  index : Nat
  previous_hash : String
  timestamp : Nat
  transactions : List Json
  nonce : Nat

/-- Models `Block.to_dict`, in the source's insertion order (the order is
irrelevant to the digest because `dumpJson` sorts keys). -/
def Block.to_dict (b : Block) : Json :=
  Json.obj [("index", .num b.index), ("previous_hash", .str b.previous_hash),
            ("timestamp", .num b.timestamp), ("transactions", .arr b.transactions),
            ("nonce", .num b.nonce)]

/-- Models `Block.hash`. -/
def Block.hash (b : Block) : String := hash_object b.to_dict

/-- The genesis transaction list seeded by `create_genesis`. -/
def genesisTxs : List Json :=
  [Json.obj [("type", .str "genesis"), ("msg", .str "Genesis Block")]]

/-- The genesis block built by `Blockchain.create_genesis` at timestamp `ts`:
`Block(0, "0"*64, now_ts(), [...], nonce=0)`. -/
def genesisBlock (ts : Nat) : Block :=
  ⟨0, String.mk (List.replicate 64 '0'), ts, genesisTxs, 0⟩

/-- The ledger: `difficulty` and `chain`, as in class `Blockchain`. -/
structure Blockchain where
  difficulty : Nat
  chain : List Block

/-- Models `Blockchain.__init__(difficulty)` when no durable chain exists:
`create_genesis` seeds the chain with a single genesis block. -/
def Blockchain.init (difficulty ts : Nat) : Blockchain :=
  ⟨difficulty, [genesisBlock ts]⟩

/-- Models `h.startswith("0" * difficulty)` on a digest. -/
def startsWithZeros (difficulty : Nat) (h : String) : Bool :=
  List.isPrefixOf (List.replicate difficulty '0') h.data

/-- Models `Blockchain.last_block`, i.e. `self.chain[-1]`; `none` models the
`IndexError` raised on an empty chain. -/
def Blockchain.last_block (bc : Blockchain) : Option Block :=
  bc.chain.getLast?

/-- Models `Blockchain.proof_of_work`: recompute the digest and increment the
nonce until the digest has `difficulty` leading zero hex characters.  `fuel`
bounds the number of loop iterations; `none` models not having returned yet. -/
def Blockchain.proof_of_work (bc : Blockchain) : Block → Nat → Option Block
  | _, 0 => none
  | b, fuel + 1 =>
      if startsWithZeros bc.difficulty b.hash then some b
      else bc.proof_of_work { b with nonce := b.nonce + 1 } fuel

/-- Models `Blockchain.add_block(transactions)` with block timestamp `ts`:
build a candidate with `index = len(chain)`, `previous_hash = last_block().hash()`
and `nonce = 0`, mine it, and append it.  `none` models either the
`IndexError` of `last_block` on an empty chain or mining not terminating
within `fuel` iterations. -/
def Blockchain.add_block (bc : Blockchain) (transactions : List Json) (ts fuel : Nat) :
    Option (Blockchain × Block) :=
  match bc.last_block with
  | none => none
  | some last =>
      match bc.proof_of_work ⟨bc.chain.length, last.hash, ts, transactions, 0⟩ fuel with
      | none => none
      | some mined => some ({ bc with chain := bc.chain ++ [mined] }, mined)

/-- The pairwise walk of `Blockchain.is_chain_valid`: for each `i ≥ 1`, check
`chain[i].previous_hash == chain[i-1].hash()` and the difficulty target of
`chain[i].hash()`, short-circuiting on the first violation. -/
def chainWalk (difficulty : Nat) : List Block → Bool
  | prev :: curr :: rest =>
      (curr.previous_hash == prev.hash) && startsWithZeros difficulty curr.hash
        && chainWalk difficulty (curr :: rest)
  | _ => true

/-- Models `Blockchain.is_chain_valid`. -/
def Blockchain.is_chain_valid (bc : Blockchain) : Bool :=
  chainWalk bc.difficulty bc.chain

example :
    (genesisBlock 1700000000).hash =
      "86fc837d711eef49838718cda0c9c25f50799bce573392beac4990b905d87470" := by decide

example :
    (genesisBlock 0).hash =
      "d4e02ff7927e07e8ac14eb0508a144dbffc305df03eeeb07689a12f47f02949f" := by decide

/-! ## Registry and transaction orchestration
(`src/app.py`: `transfer_property`, `rent_property`)

Property records are structures; the property store is an association list
keyed by property id (Python dict).  Python mutates the shared `props` dict
and `blockchain` in place and returns `(False, message)` or `(True, block)`;
the embedding passes state explicitly and returns the resulting store,
ledger, and an `Except` carrying either the message or the mined block, with
`none` again modelling a mining run that has not returned. -/

/-- History event records.  The source stores dicts tagged by a `"type"`
field; `src`/`dst` stand for the `"from"`/`"to"` keys of transfer events. -/
inductive HistEntry where
  | created (owner : String) (timestamp : Nat)
  | transfer (src dst : String) (timestamp : Nat) (block_index : Nat)
  | rent (owner renter : String) (timestamp : Nat) (block_index : Nat)

/-- The `"type"` field of a history entry. -/
def HistEntry.htype : HistEntry → String
  | .created .. => "created"
  | .transfer .. => "transfer"
  | .rent .. => "rent"

/-- The `"block_index"` field of a history entry, absent on `created`. -/
def HistEntry.blockIndex : HistEntry → Option Nat
  | .created .. => none
  | .transfer _ _ _ i => some i
  | .rent _ _ _ i => some i

/-- A property record, with the fields built by `create_property`. -/
structure Property where
  id : String
  title : String
  description : String
  owner : String
  created_at : Nat
  rented_to : Option String
  history : List HistEntry

/-- The property store: a Python dict keyed by property id. -/
def Props : Type := List (String × Property)

/-- In-place update of the record stored under an existing key, modelling
mutation of the dict entry (`prop["owner"] = ...` etc.). -/
def setProp (props : Props) (pid : String) (p : Property) : Props :=
  List.map (fun kv => if kv.1 == pid then (pid, p) else kv) props

/-- The transfer transaction record built by `transfer_property`. -/
def transferTx (property_id src dst : String) (ts : Nat) : Json :=
  Json.obj [("type", .str "transfer"), ("property_id", .str property_id),
            ("from", .str src), ("to", .str dst), ("timestamp", .num ts)]

/-- The rent transaction record built by `rent_property`. -/
def rentTx (property_id owner renter : String) (ts : Nat) : Json :=
  Json.obj [("type", .str "rent"), ("property_id", .str property_id),
            ("owner", .str owner), ("renter", .str renter), ("timestamp", .num ts)]

/-- Models `transfer_property(props, property_id, new_owner_id, blockchain)`.
`txTs`, `blockTs`, `histTs` are the three separate `now_ts()` readings (for
the transaction record, the mined block, and the history entry). -/
def transfer_property (props : Props) (property_id new_owner_id : String)
    (bc : Blockchain) (txTs blockTs histTs fuel : Nat) :
    Option (Props × Blockchain × Except String Block) :=
  match List.lookup property_id props with
  | none => some (props, bc, .error "Property not found")
  | some prop =>
      if new_owner_id == prop.owner then
        some (props, bc, .error "Cannot transfer to same owner")
      else
        match bc.add_block [transferTx property_id prop.owner new_owner_id txTs]
            blockTs fuel with
        | none => none
        | some (bc2, block) =>
            some (setProp props property_id
              { prop with
                owner := new_owner_id
                rented_to := none
                history := prop.history ++
                  [.transfer prop.owner new_owner_id histTs block.index] },
              bc2, .ok block)

/-- Models `rent_property(props, property_id, renter_id, blockchain)`. -/
def rent_property (props : Props) (property_id renter_id : String)
    (bc : Blockchain) (txTs blockTs histTs fuel : Nat) :
    Option (Props × Blockchain × Except String Block) :=
  match List.lookup property_id props with
  | none => some (props, bc, .error "Property not found")
  | some prop =>
      if renter_id == prop.owner then
        some (props, bc, .error "Owner cannot rent to themselves")
      else
        match bc.add_block [rentTx property_id prop.owner renter_id txTs]
            blockTs fuel with
        | none => none
        | some (bc2, block) =>
            some (setProp props property_id
              { prop with
                rented_to := some renter_id
                history := prop.history ++
                  [.rent prop.owner renter_id histTs block.index] },
              bc2, .ok block)

/-! ## Ledger lemmas -/

/-- Mining returns the input block with only the nonce advanced, its digest
meets the difficulty target, and every skipped nonce fails the target. -/
theorem proof_of_work_props (bc : Blockchain) :
    ∀ (fuel : Nat) (b b' : Block), bc.proof_of_work b fuel = some b' →
      b'.index = b.index ∧ b'.previous_hash = b.previous_hash ∧
      b'.timestamp = b.timestamp ∧ b'.transactions = b.transactions ∧
      b.nonce ≤ b'.nonce ∧
      startsWithZeros bc.difficulty b'.hash = true ∧
      ∀ m, b.nonce ≤ m → m < b'.nonce →
        startsWithZeros bc.difficulty (Block.hash { b with nonce := m }) = false := by
  intro fuel
  induction fuel with
  | zero => intro b b' h; simp [Blockchain.proof_of_work] at h
  | succ n ih =>
      intro b b' h
      rw [Blockchain.proof_of_work] at h
      by_cases hz : startsWithZeros bc.difficulty b.hash = true
      · rw [if_pos hz] at h
        cases h
        exact ⟨rfl, rfl, rfl, rfl, Nat.le_refl _, hz, fun m h1 h2 => absurd h2 (by omega)⟩
      · rw [if_neg hz] at h
        obtain ⟨h1, h2, h3, h4, h5, h6, h7⟩ := ih _ _ h
        refine ⟨h1, h2, h3, h4, by simpa using Nat.le_of_succ_le h5, h6, ?_⟩
        intro m hm1 hm2
        rcases Nat.eq_or_lt_of_le hm1 with heq | hlt
        · have hb : ({ b with nonce := m } : Block) = b := by
            cases b; simp_all
          rw [hb]
          exact Bool.not_eq_true _ ▸ (Bool.eq_false_iff.mpr (fun hc => hz hc))
        · exact h7 m (by simpa using hlt) hm2

/-- Everything `add_block` guarantees about a successful call: the chain is
extended by exactly the returned block, whose index, timestamp, transactions
and previous hash are as constructed, whose digest meets the difficulty
target, and whose nonce is least among the accepting nonces of the candidate. -/
theorem add_block_props (bc : Blockchain) (txs : List Json) (ts fuel : Nat)
    (bc2 : Blockchain) (blk : Block)
    (h : bc.add_block txs ts fuel = some (bc2, blk)) :
    bc2.difficulty = bc.difficulty ∧
    bc2.chain = bc.chain ++ [blk] ∧
    blk.index = bc.chain.length ∧ blk.timestamp = ts ∧ blk.transactions = txs ∧
    (∃ hne : bc.chain ≠ [], blk.previous_hash = (bc.chain.getLast hne).hash) ∧
    startsWithZeros bc.difficulty blk.hash = true ∧
    ∀ m, m < blk.nonce →
      startsWithZeros bc.difficulty
        (Block.hash ⟨bc.chain.length, blk.previous_hash, ts, txs, m⟩) = false := by
  unfold Blockchain.add_block Blockchain.last_block at h
  split at h
  · exact absurd h (by simp)
  · next last hl =>
      split at h
      · exact absurd h (by simp)
      · next mined hm =>
          obtain ⟨h1, h2⟩ : ({ bc with chain := bc.chain ++ [mined] } : Blockchain) = bc2
              ∧ mined = blk := by simpa using h
          obtain ⟨p1, p2, p3, p4, p5, p6, p7⟩ := proof_of_work_props bc fuel _ _ hm
          have hne : bc.chain ≠ [] := by
            intro he; rw [he] at hl; exact absurd hl (by simp)
          have hlast : last = bc.chain.getLast hne := by
            have h3 := List.getLast?_eq_getLast bc.chain hne
            rw [hl] at h3; exact Option.some_injective _ h3
          subst h2
          refine ⟨?_, ?_, by simpa using p1, by simpa using p3,
            by simpa using p4, ⟨hne, ?_⟩, p6, ?_⟩
          · rw [← h1]
          · rw [← h1]
          · rw [← hlast]; simpa using p2
          · intro m hm2
            have h4 := p7 m (Nat.zero_le m) hm2
            have hp : mined.previous_hash = last.hash := by simpa using p2
            rw [hp]
            simpa using h4

/-- The adjacency property `is_chain_valid` checks for each consecutive pair. -/
def linkOk (difficulty : Nat) (prev curr : Block) : Prop :=
  curr.previous_hash = prev.hash ∧ startsWithZeros difficulty curr.hash = true

/-- The pairwise walk is exactly `List.Chain'` of `linkOk`. -/
theorem chainWalk_iff_chain (d : Nat) :
    ∀ c : List Block, (chainWalk d c = true ↔ List.Chain' (linkOk d) c)
  | [] => by simp [chainWalk]
  | [a] => by simp [chainWalk]
  | a :: b :: t => by
      have ih := chainWalk_iff_chain d (b :: t)
      simp [chainWalk, List.chain'_cons, linkOk, Bool.and_eq_true, beq_iff_eq, ih, and_assoc]

/-- Ledger states reachable from a freshly initialized ledger (genesis only)
by any finite sequence of successful `add_block` calls. -/
inductive Reachable : Blockchain → Prop where
  | init (difficulty ts : Nat) : Reachable (Blockchain.init difficulty ts)
  | step (bc bc2 : Blockchain) (txs : List Json) (ts fuel : Nat) (blk : Block) :
      Reachable bc → bc.add_block txs ts fuel = some (bc2, blk) → Reachable bc2

/-- Reachable ledgers have a non-empty chain that `is_chain_valid` accepts. -/
theorem reachable_props (bc : Blockchain) (h : Reachable bc) :
    bc.chain ≠ [] ∧ bc.is_chain_valid = true := by
  induction h with
  | init d ts =>
      exact ⟨by simp [Blockchain.init],
        by simp [Blockchain.is_chain_valid, Blockchain.init, chainWalk]⟩
  | step bc bc2 txs ts fuel blk hr hab ih =>
      obtain ⟨hne, hvalid⟩ := ih
      obtain ⟨p1, p2, p3, p4, p5, ⟨hne2, hph⟩, p7, p8⟩ :=
        add_block_props _ _ _ _ _ _ hab
      refine ⟨by rw [p2]; simp, ?_⟩
      rw [Blockchain.is_chain_valid, p1, p2, chainWalk_iff_chain]
      apply List.Chain'.append
      · exact (chainWalk_iff_chain _ _).mp hvalid
      · simp
      · intro x hx y hy
        simp at hy
        rw [List.getLast?_eq_getLast _ hne2] at hx
        simp at hx
        subst hy; subst hx
        exact ⟨hph, p7⟩

/-- Indexed reading of `is_chain_valid`: every non-genesis block links to its
predecessor's digest and meets the difficulty target. -/
theorem is_chain_valid_idx (bc : Blockchain) :
    bc.is_chain_valid = true ↔
      ∀ (i : Nat) (h : i + 1 < bc.chain.length),
        (bc.chain.get ⟨i + 1, h⟩).previous_hash
            = (bc.chain.get ⟨i, by omega⟩).hash ∧
        startsWithZeros bc.difficulty (bc.chain.get ⟨i + 1, h⟩).hash = true := by
  rw [Blockchain.is_chain_valid, chainWalk_iff_chain, List.chain'_iff_get]
  constructor
  · intro hc i hi
    exact ⟨(hc i (by omega)).1, (hc i (by omega)).2⟩
  · intro hc i hi
    exact ⟨(hc i (by omega)).1, (hc i (by omega)).2⟩

/-! ## Claim C1 -/

/-- Claim C1: for every ledger with a non-empty chain, a successful
`add_block(txs)` appends exactly one block and returns it; the new block's
index is the prior chain length, its `previous_hash` is the digest of the
prior last block, its transactions are `txs`, its timestamp is the supplied
mining timestamp, its digest meets the difficulty target, and its nonce is
the least non-negative integer whose candidate digest meets the target. -/
theorem add_block_spec (bc : Blockchain) (txs : List Json) (ts fuel : Nat)
    (bc2 : Blockchain) (blk : Block)
    (hne : bc.chain ≠ [])
    (h : bc.add_block txs ts fuel = some (bc2, blk)) :
    bc2.chain = bc.chain ++ [blk] ∧
    blk.index = bc.chain.length ∧
    blk.previous_hash = (bc.chain.getLast hne).hash ∧
    blk.transactions = txs ∧
    blk.timestamp = ts ∧
    startsWithZeros bc.difficulty blk.hash = true ∧
    ∀ m, m < blk.nonce → startsWithZeros bc.difficulty
        (Block.hash ⟨bc.chain.length, blk.previous_hash, ts, txs, m⟩) = false := by
  obtain ⟨p1, p2, p3, p4, p5, ⟨hne2, hph⟩, p7, p8⟩ := add_block_props _ _ _ _ _ _ h
  exact ⟨p2, p3, hph, p5, p4, p7, p8⟩

/-- A concrete successful `add_block` run (difficulty 0 accepts at nonce 0). -/
def bcW : Blockchain := Blockchain.init 0 0

/-- The result of the concrete run behind the C1 witness. -/
def outW : Option (Blockchain × Block) := bcW.add_block [] 5 1

/-- The ledger produced by the concrete run behind the C1 witness. -/
def bcW2 : Blockchain := (outW.getD (bcW, genesisBlock 0)).1

/-- The block mined by the concrete run behind the C1 witness. -/
def blkW : Block := (outW.getD (bcW, genesisBlock 0)).2

/-- Witness for C1 at a concrete ledger and transaction list. -/
theorem add_block_spec_witness :
    bcW.chain ≠ [] ∧
    bcW.add_block [] 5 1 = some (bcW2, blkW) ∧
    bcW2.chain = bcW.chain ++ [blkW] ∧
    blkW.index = 1 ∧
    startsWithZeros bcW.difficulty blkW.hash = true :=
  have hne : bcW.chain ≠ [] := by simp [bcW, Blockchain.init]
  have h : bcW.add_block [] 5 1 = some (bcW2, blkW) := by rfl
  have hc := add_block_spec bcW [] 5 1 bcW2 blkW hne h
  ⟨hne, h, hc.1, by rw [hc.2.1]; rfl, hc.2.2.2.2.2.1⟩

/-! ## Claim C2 -/

/-- Claim C2: every chain obtained from a freshly initialized ledger by any
finite sequence of successful `add_block` calls passes `is_chain_valid`. -/
theorem reachable_is_chain_valid (bc : Blockchain) (h : Reachable bc) :
    bc.is_chain_valid = true :=
  (reachable_props bc h).2

/-- Witness for C2 at a concrete freshly initialized ledger. -/
theorem reachable_is_chain_valid_witness :
    (Blockchain.init 2 1700000000).is_chain_valid = true :=
  reachable_is_chain_valid _ (Reachable.init 2 1700000000)

/-! ## Claim C3 -/

/-- Indexing helper: reading the freshly written position of `List.set`. -/
theorem get_set_same (l : List Block) (i : Nat) (b : Block)
    (h : i < (l.set i b).length) : (l.set i b).get ⟨i, h⟩ = b := by
  simp [List.get_eq_getElem, List.getElem_set_self]

/-- Indexing helper: reading an untouched position of `List.set`. -/
theorem get_set_other (l : List Block) (i j : Nat) (b : Block) (hne : i ≠ j)
    (h : j < (l.set i b).length) :
    (l.set i b).get ⟨j, h⟩ = l.get ⟨j, by simpa using h⟩ := by
  simp [List.get_eq_getElem, List.getElem_set_ne hne]

/-- Indexing helper: equal indices give equal elements. -/
theorem get_congr (l : List Block) (i j : Nat) (hij : i = j) (h : i < l.length) :
    l.get ⟨i, h⟩ = l.get ⟨j, hij ▸ h⟩ := by subst hij; rfl

/-- Counterexample to claim C3 as stated: a ledger constructed at difficulty 2
with no durable chain holds exactly the genesis block, but that block's digest
does not have two leading zero hex characters — `create_genesis` never mines. -/
theorem genesis_not_mined_cex :
    (Blockchain.init 2 1700000000).chain = [genesisBlock 1700000000] ∧
    startsWithZeros 2 (genesisBlock 1700000000).hash = false :=
  ⟨rfl, by rfl⟩

/-- Claim C3 (amended): construction with no durable chain yields exactly the
one genesis block, and in every chain accepted by `is_chain_valid` each block
at index `≥ 1` meets the difficulty target; the genesis digest itself is
unconstrained. -/
theorem genesis_and_pow_spec (d ts : Nat) :
    (Blockchain.init d ts).chain = [genesisBlock ts] ∧
    ∀ bc : Blockchain, bc.is_chain_valid = true →
      ∀ (i : Nat) (h : i < bc.chain.length), 1 ≤ i →
        startsWithZeros bc.difficulty (bc.chain.get ⟨i, h⟩).hash = true := by
  refine ⟨rfl, ?_⟩
  intro bc hv i h hi
  have hidx := (is_chain_valid_idx bc).mp hv (i - 1) (by omega)
  have e1 := get_congr bc.chain (i - 1 + 1) i (by omega) (by omega)
  rw [e1] at hidx
  exact hidx.2

/-- Genesis of the concrete two-block chain used by several witnesses. -/
def gCex : Block := genesisBlock 1700000000

/-- A block genuinely mined on top of `gCex` at difficulty 2 (nonce 500 is
the least accepting nonce for this candidate). -/
def b1Cex : Block := ⟨1, gCex.hash, 1700000001, [], 500⟩

/-- A concrete two-block chain that `is_chain_valid` accepts at difficulty 2. -/
def bcCex : Blockchain := ⟨2, [gCex, b1Cex]⟩

/-- Witness for the amended C3 at concrete inputs. -/
theorem genesis_and_pow_spec_witness :
    (Blockchain.init 2 1700000000).chain = [genesisBlock 1700000000] ∧
    bcCex.is_chain_valid = true ∧
    startsWithZeros bcCex.difficulty (bcCex.chain.get ⟨1, by decide⟩).hash = true :=
  have hv : bcCex.is_chain_valid = true := by rfl
  ⟨(genesis_and_pow_spec 2 1700000000).1, hv,
    (genesis_and_pow_spec 2 1700000000).2 bcCex hv 1 (by decide) (by decide)⟩

/-! ## Claim C4 -/

/-- The same candidate as `b1Cex` with a different nonce whose digest also
meets the difficulty target. -/
def b1Cex2 : Block := ⟨1, gCex.hash, 1700000001, [], 993⟩

/-- Counterexample to claim C4 as stated: mutating the last block's nonce to
a different value can leave `is_chain_valid` returning true, because no later
block pins the last block's digest. -/
theorem tamper_not_detected_cex :
    bcCex.is_chain_valid = true ∧
    (993 : Nat) ≠ b1Cex.nonce ∧
    (Blockchain.mk 2 (bcCex.chain.set 1 { b1Cex with nonce := 993 })).is_chain_valid
      = true :=
  ⟨by rfl, by decide, by rfl⟩

/-- Claim C4 (amended): in a chain accepted by `is_chain_valid`, (a) changing
the `previous_hash` of any block at index `≥ 1` to a different value makes
`is_chain_valid` return false, and (b) replacing any non-last block by a
block with a different digest (as any digest-changing mutation of its
`transactions`, `nonce` or `previous_hash` does) makes `is_chain_valid`
return false.  Digest-preserving mutations, and mutations of the last
block's `transactions` or `nonce` whose new digest still meets the target,
are not detected. -/
theorem tamper_detection_spec (bc : Blockchain) (hv : bc.is_chain_valid = true) :
    (∀ (i : Nat) (h : i < bc.chain.length), 1 ≤ i → ∀ p : String,
        p ≠ (bc.chain.get ⟨i, h⟩).previous_hash →
        (Blockchain.mk bc.difficulty
          (bc.chain.set i { bc.chain.get ⟨i, h⟩ with previous_hash := p })).is_chain_valid
            = false) ∧
    (∀ (i : Nat) (hi1 : i + 1 < bc.chain.length), ∀ b2 : Block,
        b2.hash ≠ (bc.chain.get ⟨i, by omega⟩).hash →
        (Blockchain.mk bc.difficulty (bc.chain.set i b2)).is_chain_valid = false) := by
  constructor
  · intro i h hi p hp
    by_contra hcon
    rw [Bool.not_eq_false] at hcon
    have hlen : ((bc.chain.set i
        { bc.chain.get ⟨i, h⟩ with previous_hash := p }).length) = bc.chain.length := by
      simp
    have hidx := (is_chain_valid_idx _).mp hcon (i - 1) (by simp [hlen]; omega)
    have e1 := get_congr _ (i - 1 + 1) i (by omega)
      (show i - 1 + 1 < (bc.chain.set i
        { bc.chain.get ⟨i, h⟩ with previous_hash := p }).length by simp [hlen]; omega)
    rw [e1] at hidx
    rw [get_set_same, get_set_other _ _ _ _ (by omega)] at hidx
    have horig := (is_chain_valid_idx bc).mp hv (i - 1) (by omega)
    have e2 := get_congr bc.chain (i - 1 + 1) i (by omega) (by omega)
    rw [e2] at horig
    exact hp (horig.1 ▸ hidx.1)
  · intro i hi1 b2 hb2
    by_contra hcon
    rw [Bool.not_eq_false] at hcon
    have hidx := (is_chain_valid_idx _).mp hcon i (by simp; omega)
    rw [get_set_same, get_set_other _ _ _ _ (by omega)] at hidx
    have horig := (is_chain_valid_idx bc).mp hv i (by omega)
    exact hb2 (hidx.1.symm.trans horig.1)

/-- Witness for the amended C4 at the concrete two-block chain: a
`previous_hash` mutation of the last block and a digest-changing nonce
mutation of the non-last genesis block are both detected. -/
theorem tamper_detection_spec_witness :
    bcCex.is_chain_valid = true ∧
    ("x" : String) ≠ (bcCex.chain.get ⟨1, by decide⟩).previous_hash ∧
    (Blockchain.mk bcCex.difficulty
      (bcCex.chain.set 1
        { bcCex.chain.get ⟨1, by decide⟩ with previous_hash := "x" })).is_chain_valid
      = false ∧
    Block.hash { gCex with nonce := 1 } ≠ (bcCex.chain.get ⟨0, by decide⟩).hash ∧
    (Blockchain.mk bcCex.difficulty
      (bcCex.chain.set 0 { gCex with nonce := 1 })).is_chain_valid = false :=
  have hv : bcCex.is_chain_valid = true := by rfl
  have hp : ("x" : String) ≠ (bcCex.chain.get ⟨1, by decide⟩).previous_hash := by decide
  have hb : Block.hash { gCex with nonce := 1 }
      ≠ (bcCex.chain.get ⟨0, by decide⟩).hash := by decide
  ⟨hv, hp, (tamper_detection_spec bcCex hv).1 1 (by decide) (by decide) "x" hp,
    hb, (tamper_detection_spec bcCex hv).2 0 (by decide) _ hb⟩

/-! ## Claim C5: order lemmas for the key sort -/

/-- `strLeb` is total. -/
theorem strLeb_total : ∀ a b : List Char, strLeb a b = true ∨ strLeb b a = true
  | [], _ => Or.inl rfl
  | _ :: _, [] => Or.inr rfl
  | c :: cs, d :: ds => by
      rcases Nat.lt_trichotomy c.toNat d.toNat with h | h | h
      · left; simp [strLeb, h]
      · rcases strLeb_total cs ds with ih | ih
        · left; simp [strLeb, h, ih]
        · right; simp [strLeb, h.symm, ih]
      · right; simp [strLeb, h]

/-- `strLeb` is transitive. -/
theorem strLeb_trans : ∀ a b c : List Char,
    strLeb a b = true → strLeb b c = true → strLeb a c = true
  | [], _, _ => fun _ _ => rfl
  | _ :: _, [], _ => fun h _ => by simp [strLeb] at h
  | _ :: _, _ :: _, [] => fun _ h => by simp [strLeb] at h
  | x :: xs, y :: ys, z :: zs => fun h1 h2 => by
      by_cases hxy : x.toNat < y.toNat
      · by_cases hyz : y.toNat < z.toNat
        · simp [strLeb, Nat.lt_trans hxy hyz]
        · by_cases hzy : z.toNat < y.toNat
          · simp [strLeb, hyz, hzy] at h2
          · simp [strLeb, show x.toNat < z.toNat by omega]
      · by_cases hyx : y.toNat < x.toNat
        · simp [strLeb, hxy, hyx] at h1
        · rw [strLeb] at h1; simp [hxy, hyx] at h1
          by_cases hyz : y.toNat < z.toNat
          · simp [strLeb, show x.toNat < z.toNat by omega]
          · by_cases hzy : z.toNat < y.toNat
            · simp [strLeb, hyz, hzy] at h2
            · rw [strLeb] at h2; simp [hyz, hzy] at h2
              simp [strLeb, show ¬ x.toNat < z.toNat by omega,
                show ¬ z.toNat < x.toNat by omega, strLeb_trans xs ys zs h1 h2]

/-- `strLeb` is antisymmetric. -/
theorem strLeb_antisymm : ∀ a b : List Char,
    strLeb a b = true → strLeb b a = true → a = b
  | [], [] => fun _ _ => rfl
  | [], _ :: _ => fun _ h2 => by simp [strLeb] at h2
  | _ :: _, [] => fun h1 _ => by simp [strLeb] at h1
  | x :: xs, y :: ys => fun h1 h2 => by
      by_cases hxy : x.toNat < y.toNat
      · simp [strLeb, hxy, show ¬ y.toNat < x.toNat by omega] at h2
      · by_cases hyx : y.toNat < x.toNat
        · simp [strLeb, hxy, hyx] at h1
        · rw [strLeb] at h1; simp [hxy, hyx] at h1
          rw [strLeb] at h2; simp [hxy, hyx] at h2
          have hch : x = y := by
            have h3 : x.toNat = y.toNat := by omega
            exact Char.ext (UInt32.toNat.inj h3)
          rw [hch, strLeb_antisymm xs ys h1 h2]

/-- The key order used by `insertPair` / `sortPairs`. -/
def keyLe (p q : String × String) : Prop := strLeb p.1.data q.1.data = true

/-- `insertPair` only rearranges: it produces a permutation of consing. -/
theorem insertPair_perm (p : String × String) :
    ∀ l : List (String × String), (insertPair p l).Perm (p :: l)
  | [] => List.Perm.refl _
  | q :: rest => by
      rw [insertPair]
      by_cases hpq : strLeb p.1.data q.1.data = true
      · rw [if_pos hpq]
      · rw [if_neg hpq]
        exact ((insertPair_perm p rest).cons q).trans (List.Perm.swap p q rest)

/-- `sortPairs` permutes its input. -/
theorem sortPairs_perm : ∀ l : List (String × String), (sortPairs l).Perm l
  | [] => List.Perm.refl _
  | p :: rest => by
      rw [sortPairs]
      exact (insertPair_perm p (sortPairs rest)).trans ((sortPairs_perm rest).cons p)

/-- `insertPair` preserves sortedness. -/
theorem insertPair_sorted (p : String × String) :
    ∀ l : List (String × String), List.Pairwise keyLe l →
      List.Pairwise keyLe (insertPair p l)
  | [], _ => List.pairwise_singleton _ _
  | q :: rest, h => by
      rw [insertPair]
      rw [List.pairwise_cons] at h
      by_cases hpq : strLeb p.1.data q.1.data = true
      · rw [if_pos hpq]
        refine List.Pairwise.cons ?_ (List.Pairwise.cons h.1 h.2)
        intro x hx
        rcases List.mem_cons.mp hx with hx | hx
        · rw [hx]; exact hpq
        · exact strLeb_trans _ _ _ hpq (h.1 x hx)
      · rw [if_neg hpq]
        refine List.Pairwise.cons ?_ (insertPair_sorted p rest h.2)
        intro x hx
        rcases List.mem_cons.mp ((insertPair_perm p rest).mem_iff.mp hx) with hx | hx
        · rw [hx]
          rcases strLeb_total p.1.data q.1.data with ht | ht
          · exact absurd ht hpq
          · exact ht
        · exact h.1 x hx

/-- `sortPairs` sorts. -/
theorem sortPairs_sorted : ∀ l : List (String × String),
    List.Pairwise keyLe (sortPairs l)
  | [] => List.Pairwise.nil
  | p :: rest => insertPair_sorted p (sortPairs rest) (sortPairs_sorted rest)

/-- On entry lists with duplicate-free keys, `sortPairs` depends only on the
multiset of entries: permuted inputs sort identically. -/
theorem sortPairs_eq_of_perm (l1 l2 : List (String × String))
    (hperm : l1.Perm l2) (hnd : (l1.map Prod.fst).Nodup) :
    sortPairs l1 = sortPairs l2 := by
  have hsym : ∀ {p q : String × String}, p.1 ≠ q.1 → q.1 ≠ p.1 :=
    fun h => fun he => h he.symm
  have hnd1 : List.Pairwise (fun p q : String × String => p.1 ≠ q.1) l1 :=
    List.pairwise_map.mp hnd
  have hnd1s : List.Pairwise (fun p q : String × String => p.1 ≠ q.1) (sortPairs l1) :=
    (List.Perm.pairwise_iff hsym (sortPairs_perm l1)).mpr hnd1
  have hnd2s : List.Pairwise (fun p q : String × String => p.1 ≠ q.1) (sortPairs l2) :=
    (List.Perm.pairwise_iff hsym ((sortPairs_perm l2).trans hperm.symm)).mpr hnd1
  haveI : IsAntisymm (String × String) (fun p q => keyLe p q ∧ p.1 ≠ q.1) :=
    ⟨fun a b hab hba => by
      have he : a.1.data = b.1.data := strLeb_antisymm _ _ hab.1 hba.1
      have : a.1 = b.1 := by
        cases a1 : a.1; cases b1 : b.1
        rw [a1, b1] at he; simp at he; rw [he]
      exact absurd this hab.2⟩
  apply List.eq_of_perm_of_sorted
      (r := fun p q : String × String => keyLe p q ∧ p.1 ≠ q.1)
  · exact (sortPairs_perm l1).trans (hperm.trans (sortPairs_perm l2).symm)
  · exact (sortPairs_sorted l1).and hnd1s
  · exact (sortPairs_sorted l2).and hnd2s

/-- `dumpEntries` is a map over the entries, keeping keys. -/
theorem dumpEntries_map : ∀ l : List (String × Json),
    dumpEntries l = l.map (fun kv => (kv.1, dumpJson kv.2))
  | [] => rfl
  | (k, v) :: rest => by rw [dumpEntries, dumpEntries_map rest]; rfl

/-- Claim C5: the Canonical Hasher is a pure function of the record's logical
content — for objects equal as key-value mappings (a permutation of entries,
keys duplicate-free as in a Python dict) but listing keys in different
orders, `hash_object` produces identical digests. -/
theorem hash_object_key_order (l1 l2 : List (String × Json))
    (hperm : l1.Perm l2) (hnd : (l1.map Prod.fst).Nodup) :
    hash_object (Json.obj l1) = hash_object (Json.obj l2) := by
  unfold hash_object
  suffices hs : dumpJson (Json.obj l1) = dumpJson (Json.obj l2) by rw [hs]
  rw [dumpJson, dumpJson]
  suffices hs : sortPairs (dumpEntries l1) = sortPairs (dumpEntries l2) by rw [hs]
  apply sortPairs_eq_of_perm
  · rw [dumpEntries_map, dumpEntries_map]
    exact hperm.map _
  · rw [dumpEntries_map, List.map_map]
    have he : (Prod.fst ∘ fun kv : String × Json => (kv.1, dumpJson kv.2))
        = Prod.fst := by
      funext kv; rfl
    rw [he]
    exact hnd

/-- Witness for C5 on two concrete two-key records with swapped key order. -/
theorem hash_object_key_order_witness :
    ([("b", Json.num 1), ("a", Json.str "x")] :
        List (String × Json)).Perm [("a", Json.str "x"), ("b", Json.num 1)] ∧
    (([("b", Json.num 1), ("a", Json.str "x")] :
        List (String × Json)).map Prod.fst).Nodup ∧
    hash_object (Json.obj [("b", Json.num 1), ("a", Json.str "x")])
      = hash_object (Json.obj [("a", Json.str "x"), ("b", Json.num 1)]) :=
  have hperm : ([("b", Json.num 1), ("a", Json.str "x")] :
      List (String × Json)).Perm [("a", Json.str "x"), ("b", Json.num 1)] :=
    List.Perm.swap _ _ _
  have hnd : (([("b", Json.num 1), ("a", Json.str "x")] :
      List (String × Json)).map Prod.fst).Nodup := by decide
  ⟨hperm, hnd, hash_object_key_order _ _ hperm hnd⟩

/-! ## Claim C6 -/

/-- Looking up a key after updating its (present) entry yields the new record. -/
theorem lookup_setProp (l : List (String × Property)) (pid : String)
    (p prop : Property) (h : List.lookup pid l = some prop) :
    List.lookup pid (setProp l pid p) = some p := by
  induction l with
  | nil => simp [List.lookup] at h
  | cons kv rest ih =>
      obtain ⟨k, q⟩ := kv
      by_cases hk : pid = k
      · subst hk
        simp only [setProp, List.map, beq_self_eq_true, if_pos]
        simp [List.lookup]
      · have hkb : (pid == k) = false := beq_eq_false_iff_ne.mpr hk
        have hkb2 : (k == pid) = false := beq_eq_false_iff_ne.mpr (fun he => hk he.symm)
        rw [List.lookup, hkb] at h
        simp only [setProp, List.map, hkb2, if_neg, Bool.false_eq_true,
          not_false_iff]
        rw [List.lookup, hkb]
        exact ih h

/-- Claim C6: a successful transfer of an existing property to a new owner
distinct from the current one extends the chain by exactly one block, sets the
property's owner to the new owner, clears `rented_to`, and appends exactly one
`transfer` history entry carrying the mined block's index, leaving `id`,
`title`, `description` and `created_at` unchanged. -/
theorem transfer_property_spec (props : Props) (pid newOwner : String)
    (bc : Blockchain) (t1 t2 t3 fuel : Nat) (prop : Property)
    (props2 : Props) (bc2 : Blockchain) (blk : Block)
    (hlook : List.lookup pid props = some prop)
    (hne : newOwner ≠ prop.owner)
    (h : transfer_property props pid newOwner bc t1 t2 t3 fuel
          = some (props2, bc2, Except.ok blk)) :
    bc2.chain = bc.chain ++ [blk] ∧
    bc2.chain.length = bc.chain.length + 1 ∧
    blk.index = bc.chain.length ∧
    ∃ p2 : Property,
      List.lookup pid props2 = some p2 ∧
      p2.owner = newOwner ∧
      p2.rented_to = none ∧
      p2.history = prop.history ++ [HistEntry.transfer prop.owner newOwner t3 blk.index] ∧
      p2.history.length = prop.history.length + 1 ∧
      (HistEntry.transfer prop.owner newOwner t3 blk.index).htype = "transfer" ∧
      (HistEntry.transfer prop.owner newOwner t3 blk.index).blockIndex = some blk.index ∧
      p2.id = prop.id ∧ p2.title = prop.title ∧
      p2.description = prop.description ∧ p2.created_at = prop.created_at := by
  unfold transfer_property at h
  split at h
  · next heq => rw [heq] at hlook; exact absurd hlook (by simp)
  · next prop3 heq =>
      rw [heq] at hlook
      have hpe : prop3 = prop := by simpa using hlook
      subst hpe
      split at h
      · exact absurd h (by simp)
      · next hif =>
          split at h
          · exact absurd h (by simp)
          · next bc3 blk3 hab =>
              simp only [Option.some.injEq, Prod.mk.injEq, Except.ok.injEq] at h
              obtain ⟨hp2, hbc, hblk⟩ := h
              subst hbc; subst hblk
              obtain ⟨a1, a2, a3, a4, a5, a6, a7, a8⟩ :=
                add_block_props _ _ _ _ _ _ hab
              refine ⟨a2, by rw [a2]; simp, a3, ?_⟩
              refine ⟨{ prop3 with
                  owner := newOwner
                  rented_to := none
                  history := prop3.history ++
                    [HistEntry.transfer prop3.owner newOwner t3 blk3.index] },
                ?_, rfl, rfl, rfl, by simp, rfl, rfl, rfl, rfl, rfl, rfl⟩
              rw [← hp2]
              exact lookup_setProp _ _ _ _ heq

/-- Concrete registry for the orchestrator witnesses. -/
def propW : Property :=
  ⟨"p1", "Cabin", "2BHK", "alice", 1700000000, none,
    [HistEntry.created "alice" 1700000000]⟩

/-- Concrete property store for the orchestrator witnesses. -/
def propsW : Props := [("p1", propW)]

/-- Result of the concrete transfer behind the C6 witness (difficulty 0). -/
def transferOutW : Option (Props × Blockchain × Except String Block) :=
  transfer_property propsW "p1" "bob" bcW 10 11 12 1

/-- Store component of the concrete transfer result. -/
def transferPropsW : Props :=
  (transferOutW.getD (propsW, bcW, .error "")).1

/-- Ledger component of the concrete transfer result. -/
def transferBcW : Blockchain :=
  (transferOutW.getD (propsW, bcW, .error "")).2.1

/-- Mined-block component of the concrete transfer result. -/
def transferBlkW : Block :=
  ((transferOutW.getD (propsW, bcW, .error "")).2.2).toOption.getD (genesisBlock 0)

/-- Witness for C6 on a concrete store and ledger. -/
theorem transfer_property_spec_witness :
    List.lookup "p1" propsW = some propW ∧
    ("bob" : String) ≠ propW.owner ∧
    transfer_property propsW "p1" "bob" bcW 10 11 12 1
      = some (transferPropsW, transferBcW, Except.ok transferBlkW) ∧
    transferBcW.chain.length = bcW.chain.length + 1 ∧
    ∃ p2 : Property,
      List.lookup "p1" transferPropsW = some p2 ∧
      p2.owner = "bob" ∧ p2.rented_to = none ∧
      p2.history = propW.history ++
        [HistEntry.transfer "alice" "bob" 12 transferBlkW.index] :=
  have hlook : List.lookup "p1" propsW = some propW := by rfl
  have hne : ("bob" : String) ≠ propW.owner := by decide
  have h : transfer_property propsW "p1" "bob" bcW 10 11 12 1
      = some (transferPropsW, transferBcW, Except.ok transferBlkW) := by rfl
  have hc := transfer_property_spec propsW "p1" "bob" bcW 10 11 12 1 propW
    transferPropsW transferBcW transferBlkW hlook hne h
  ⟨hlook, hne, h, hc.2.1,
    hc.2.2.2.elim (fun p2 hp2 =>
      ⟨p2, hp2.1, hp2.2.1, hp2.2.2.1, hp2.2.2.2.1⟩)⟩

/-! ## Claim C7 -/

/-- Claim C7: transfer with an unknown property id, transfer to the current
owner, rent with an unknown property id, and rent by the current owner each
return the corresponding error result (`"Property not found"` /
`"Cannot transfer to same owner"` / `"Owner cannot rent to themselves"`,
the spec's `PropertyNotFound`, `NoOpTransfer` and `SelfRental`), with the
property store and the ledger returned unchanged — no block mined, no record
or history mutated. -/
theorem orchestrator_error_cases (props : Props) (pid x : String)
    (bc : Blockchain) (t1 t2 t3 fuel : Nat) :
    (List.lookup pid props = none →
      transfer_property props pid x bc t1 t2 t3 fuel
        = some (props, bc, .error "Property not found") ∧
      rent_property props pid x bc t1 t2 t3 fuel
        = some (props, bc, .error "Property not found")) ∧
    (∀ prop : Property, List.lookup pid props = some prop → x = prop.owner →
      transfer_property props pid x bc t1 t2 t3 fuel
        = some (props, bc, .error "Cannot transfer to same owner") ∧
      rent_property props pid x bc t1 t2 t3 fuel
        = some (props, bc, .error "Owner cannot rent to themselves")) := by
  constructor
  · intro hnone
    constructor
    · unfold transfer_property; rw [hnone]
    · unfold rent_property; rw [hnone]
  · intro prop hsome hx
    subst hx
    constructor
    · unfold transfer_property; rw [hsome]; simp
    · unfold rent_property; rw [hsome]; simp

/-- Witness for C7 at a concrete store, with fuel 0: even with no mining
budget at all the error paths return, showing no block is mined. -/
theorem orchestrator_error_cases_witness :
    List.lookup "nope" propsW = none ∧
    transfer_property propsW "nope" "bob" bcW 0 0 0 0
      = some (propsW, bcW, .error "Property not found") ∧
    rent_property propsW "nope" "bob" bcW 0 0 0 0
      = some (propsW, bcW, .error "Property not found") ∧
    List.lookup "p1" propsW = some propW ∧
    ("alice" : String) = propW.owner ∧
    transfer_property propsW "p1" "alice" bcW 0 0 0 0
      = some (propsW, bcW, .error "Cannot transfer to same owner") ∧
    rent_property propsW "p1" "alice" bcW 0 0 0 0
      = some (propsW, bcW, .error "Owner cannot rent to themselves") :=
  have hnone : List.lookup "nope" propsW = none := by rfl
  have hsome : List.lookup "p1" propsW = some propW := by rfl
  have hx : ("alice" : String) = propW.owner := by rfl
  have h1 := (orchestrator_error_cases propsW "nope" "bob" bcW 0 0 0 0).1 hnone
  have h2 := (orchestrator_error_cases propsW "p1" "alice" bcW 0 0 0 0).2 propW hsome hx
  ⟨hnone, h1.1, h1.2, hsome, hx, h2.1, h2.2⟩

/-! ## Claim C8 -/

/-- Claim C8: a successful rent of an existing property to a renter distinct
from the owner sets `rented_to` to the renter and appends exactly one `rent`
history entry, leaving `owner`, `id`, `title`, `description` and
`created_at` unchanged (and extending the chain by the mined block). -/
theorem rent_property_spec (props : Props) (pid renter : String)
    (bc : Blockchain) (t1 t2 t3 fuel : Nat) (prop : Property)
    (props2 : Props) (bc2 : Blockchain) (blk : Block)
    (hlook : List.lookup pid props = some prop)
    (hne : renter ≠ prop.owner)
    (h : rent_property props pid renter bc t1 t2 t3 fuel
          = some (props2, bc2, Except.ok blk)) :
    bc2.chain = bc.chain ++ [blk] ∧
    bc2.chain.length = bc.chain.length + 1 ∧
    ∃ p2 : Property,
      List.lookup pid props2 = some p2 ∧
      p2.owner = prop.owner ∧
      p2.rented_to = some renter ∧
      p2.history = prop.history ++ [HistEntry.rent prop.owner renter t3 blk.index] ∧
      p2.history.length = prop.history.length + 1 ∧
      p2.id = prop.id ∧ p2.title = prop.title ∧
      p2.description = prop.description ∧ p2.created_at = prop.created_at := by
  unfold rent_property at h
  split at h
  · next heq => rw [heq] at hlook; exact absurd hlook (by simp)
  · next prop3 heq =>
      rw [heq] at hlook
      have hpe : prop3 = prop := by simpa using hlook
      subst hpe
      split at h
      · exact absurd h (by simp)
      · next hif =>
          split at h
          · exact absurd h (by simp)
          · next bc3 blk3 hab =>
              simp only [Option.some.injEq, Prod.mk.injEq, Except.ok.injEq] at h
              obtain ⟨hp2, hbc, hblk⟩ := h
              subst hbc; subst hblk
              obtain ⟨a1, a2, a3, a4, a5, a6, a7, a8⟩ :=
                add_block_props _ _ _ _ _ _ hab
              refine ⟨a2, by rw [a2]; simp, ?_⟩
              refine ⟨{ prop3 with
                  rented_to := some renter
                  history := prop3.history ++
                    [HistEntry.rent prop3.owner renter t3 blk3.index] },
                ?_, rfl, rfl, rfl, by simp, rfl, rfl, rfl, rfl⟩
              rw [← hp2]
              exact lookup_setProp _ _ _ _ heq

/-- Result of the concrete rent behind the C8 witness. -/
def rentOutW : Option (Props × Blockchain × Except String Block) :=
  rent_property propsW "p1" "bob" bcW 20 21 22 1

/-- Store component of the concrete rent result. -/
def rentPropsW : Props := (rentOutW.getD (propsW, bcW, .error "")).1

/-- Ledger component of the concrete rent result. -/
def rentBcW : Blockchain := (rentOutW.getD (propsW, bcW, .error "")).2.1

/-- Mined-block component of the concrete rent result. -/
def rentBlkW : Block :=
  ((rentOutW.getD (propsW, bcW, .error "")).2.2).toOption.getD (genesisBlock 0)

/-- Witness for C8 on a concrete store and ledger. -/
theorem rent_property_spec_witness :
    List.lookup "p1" propsW = some propW ∧
    ("bob" : String) ≠ propW.owner ∧
    rent_property propsW "p1" "bob" bcW 20 21 22 1
      = some (rentPropsW, rentBcW, Except.ok rentBlkW) ∧
    rentBcW.chain.length = bcW.chain.length + 1 ∧
    ∃ p2 : Property,
      List.lookup "p1" rentPropsW = some p2 ∧
      p2.owner = "alice" ∧ p2.rented_to = some "bob" ∧
      p2.history = propW.history ++ [HistEntry.rent "alice" "bob" 22 rentBlkW.index] :=
  have hlook : List.lookup "p1" propsW = some propW := by rfl
  have hne : ("bob" : String) ≠ propW.owner := by decide
  have h : rent_property propsW "p1" "bob" bcW 20 21 22 1
      = some (rentPropsW, rentBcW, Except.ok rentBlkW) := by rfl
  have hc := rent_property_spec propsW "p1" "bob" bcW 20 21 22 1 propW
    rentPropsW rentBcW rentBlkW hlook hne h
  ⟨hlook, hne, h, hc.2.1,
    hc.2.2.elim (fun p2 hp2 =>
      ⟨p2, hp2.1, hp2.2.1, hp2.2.2.1, hp2.2.2.2.1⟩)⟩

/-! ## Claim C9 -/

/-- Claim C9: on an empty chain `last_block` fails with the defined failure
(`none`, modelling the recoverable `IndexError` of `self.chain[-1]`, the
spec's `EmptyChain`); on a non-empty chain it returns the chain's final
element. -/
theorem last_block_spec (bc : Blockchain) :
    (bc.chain = [] → bc.last_block = none) ∧
    ∀ hne : bc.chain ≠ [], bc.last_block = some (bc.chain.getLast hne) := by
  constructor
  · intro h; simp [Blockchain.last_block, h]
  · intro hne
    rw [Blockchain.last_block]
    exact List.getLast?_eq_getLast _ hne

/-- Witness for C9 on a concrete empty-chain ledger and on the genesis
ledger. -/
theorem last_block_spec_witness :
    (Blockchain.mk 2 []).chain = [] ∧
    (Blockchain.mk 2 []).last_block = none ∧
    bcW.chain ≠ [] ∧
    bcW.last_block = some (bcW.chain.getLast (by simp [bcW, Blockchain.init])) :=
  have he : (Blockchain.mk 2 []).chain = [] := rfl
  have hne : bcW.chain ≠ [] := by simp [bcW, Blockchain.init]
  ⟨he, (last_block_spec (Blockchain.mk 2 [])).1 he, hne,
    (last_block_spec bcW).2 hne⟩

/-! ## Claim C10 -/

/-- Claim C10: `rent_property` places no constraint on the current rental
state.  For any existing property and renter distinct from the owner —
whatever `rented_to` currently holds, including the same renter or a
different one — the call succeeds whenever mining does, mines a new block,
and overwrites `rented_to`. -/
theorem rent_property_ignores_rental_state (props : Props) (pid renter : String)
    (bc : Blockchain) (t1 t2 t3 fuel : Nat) (prop : Property)
    (bc2 : Blockchain) (blk : Block)
    (hlook : List.lookup pid props = some prop)
    (hne : renter ≠ prop.owner)
    (hab : bc.add_block [rentTx pid prop.owner renter t1] t2 fuel = some (bc2, blk)) :
    rent_property props pid renter bc t1 t2 t3 fuel
      = some (setProp props pid
          { prop with
            rented_to := some renter
            history := prop.history ++
              [HistEntry.rent prop.owner renter t3 blk.index] },
          bc2, .ok blk) ∧
    bc2.chain.length = bc.chain.length + 1 := by
  constructor
  · unfold rent_property
    rw [hlook]
    simp only [beq_eq_false_iff_ne.mpr hne, Bool.false_eq_true, if_false]
    rw [hab]
  · obtain ⟨a1, a2, a3, a4, a5, a6, a7, a8⟩ := add_block_props _ _ _ _ _ _ hab
    rw [a2]; simp

/-- A property that is already rented out, for the C10 witness. -/
def propR : Property :=
  ⟨"p2", "Loft", "Studio", "bob", 1700000000, some "carlos",
    [HistEntry.created "bob" 1700000000]⟩

/-- Store holding the already-rented property. -/
def propsR : Props := [("p2", propR)]

/-- Ledger component of the concrete re-rent mining run. -/
def rentBcR : Blockchain :=
  ((bcW.add_block [rentTx "p2" "bob" "carlos" 30] 31 1).getD (bcW, genesisBlock 0)).1

/-- Block component of the concrete re-rent mining run. -/
def rentBlkR : Block :=
  ((bcW.add_block [rentTx "p2" "bob" "carlos" 30] 31 1).getD (bcW, genesisBlock 0)).2

/-- Witness for C10: re-renting to the current renter of an already-rented
property succeeds and mines a block. -/
theorem rent_property_ignores_rental_state_witness :
    List.lookup "p2" propsR = some propR ∧
    propR.rented_to = some "carlos" ∧
    ("carlos" : String) ≠ propR.owner ∧
    bcW.add_block [rentTx "p2" "bob" "carlos" 30] 31 1 = some (rentBcR, rentBlkR) ∧
    rent_property propsR "p2" "carlos" bcW 30 31 32 1
      = some (setProp propsR "p2"
          { propR with
            rented_to := some "carlos"
            history := propR.history ++
              [HistEntry.rent "bob" "carlos" 32 rentBlkR.index] },
          rentBcR, .ok rentBlkR) ∧
    rentBcR.chain.length = bcW.chain.length + 1 :=
  have hlook : List.lookup "p2" propsR = some propR := by rfl
  have hrt : propR.rented_to = some "carlos" := by rfl
  have hne : ("carlos" : String) ≠ propR.owner := by decide
  have hab : bcW.add_block [rentTx "p2" "bob" "carlos" 30] 31 1
      = some (rentBcR, rentBlkR) := by rfl
  have hc := rent_property_ignores_rental_state propsR "p2" "carlos" bcW
    30 31 32 1 propR rentBcR rentBlkR hlook hne hab
  ⟨hlook, hrt, hne, hab, hc.1, hc.2⟩
